import Mathlib

/-!
# Verification of the libStorage Go client (`api/client/client.go`)

A shallow embedding of the client's connection/dispatch pipeline and the
peripheral local-device scanner, with theorems checking the natural-language
specification against the code.

Strings that the proofs analyse character by character are modelled as
`List Char`; configuration-level strings stay `String`.
-/

namespace LibStorage

/-! ## Character classes

Go's `regexp` package (RE2) defines `\w` as `[0-9A-Za-z_]` and `\s` as
`[\t\n\f\r ]`; both are embedded here over `Char`. -/

/-- RE2 word-character class `\w` = `[0-9A-Za-z_]`. -/
def isWordChar (c : Char) : Bool :=
  (48 ≤ c.toNat && c.toNat ≤ 57) ||
  (65 ≤ c.toNat && c.toNat ≤ 90) ||
  c.toNat = 95 ||
  (97 ≤ c.toNat && c.toNat ≤ 122)

/-- RE2 whitespace class `\s` = `[\t\n\f\r ]`. -/
def isSpaceChar (c : Char) : Bool :=
  c.toNat = 9 || c.toNat = 10 || c.toNat = 12 || c.toNat = 13 || c.toNat = 32

/-- Test `startsWith pat l`: holds when `pat` is an initial segment of `l`. -/
def startsWith : List Char → List Char → Bool
  | [], _ => true
  | _ :: _, [] => false
  | p :: ps, c :: cs => p = c && startsWith ps cs

/-! ## Local device scanner (`getLocalDevices`)

The Go function reads the configured file, splits it into lines with
`bufio.Scanner` (default `ScanLines` split), and matches each line against the
regular expression `^.+?\s(<pfx>\w+)$`, where `<pfx>` is the caller-supplied
prefix interpolated literally (the theorems below assume the prefix consists of
word characters, so the interpolation introduces no metacharacters).  For each
matching line it appends `"/dev/" + m[1]` where `m[1]` is the capture group. -/

/-- Go's `bufio.ScanLines` drops a single trailing `'\r'` from each line. -/
def dropCR (l : List Char) : List Char :=
  if l.getLast? = some '\r' then l.dropLast else l

/-- Split file content into lines exactly as Go's `bufio.Scanner` with the
default `ScanLines` split function does: lines are separated by `'\n'`, a
terminating `'\n'` produces no trailing empty line, and each line has a
trailing `'\r'` stripped. -/
def scanLines (s : List Char) : List (List Char) :=
  if s = [] then []
  else
    let parts := s.splitOn '\n'
    let parts := if s.getLast? = some '\n' then parts.dropLast else parts
    parts.map dropCR

/-- The tail of the regular expression, `(<pfx>\w+)$` applied to the remainder
`rest` of the line: `rest` must start with the literal prefix and continue with
one or more word characters up to the end of the line. -/
def tailOk (pfx rest : List Char) : Bool :=
  startsWith pfx rest && decide (rest.drop pfx.length ≠ []) &&
    (rest.drop pfx.length).all isWordChar

/-- Backtracking search for the `\s(<pfx>\w+)$` part of the pattern after the
lazy `.+?` has consumed at least one character: at each position, if the
current character is whitespace and the rest of the line satisfies
`(<pfx>\w+)$`, the capture group is that rest; otherwise the lazy quantifier
absorbs the character and the search advances.  This reproduces RE2's
leftmost, lazy-first submatch choice for `^.+?\s(<pfx>\w+)$`. -/
def rxFind (pfx : List Char) : List Char → Option (List Char)
  | [] => none
  | c :: rest =>
      if isSpaceChar c && tailOk pfx rest then some rest
      else rxFind pfx rest

/-- Submatch search (`FindStringSubmatch`) of `^.+?\s(<pfx>\w+)$` on one line, returning the
capture group `m[1]` when the line matches.  The `^.+?` part must consume at
least one character, so the search for the whitespace starts after the first
character of the line. -/
def lineMatch (pfx : List Char) : List Char → Option (List Char)
  | [] => none
  | _ :: rest => rxFind pfx rest

/-- The scanner `getLocalDevices`, with the configured file's content passed in place of
the `ioutil.ReadFile` result (the success path of the read; a read failure
returns the error before any scanning).  Scans each line and emits
`"/dev/" + m[1]` for each line matching `^.+?\s(<pfx>\w+)$`, in file order. -/
def getLocalDevices (pfx content : List Char) : List (List Char) :=
  (scanLines content).filterMap fun l =>
    (lineMatch pfx l).map fun cap => ("/dev/".toList ++ cap)

/-! ## JSON codec (`encoding/json` as used by `encPayload` / `decRes`)

`encPayload` marshals the payload with `json.Marshal`; `decRes` reads the whole
response body and unmarshals it with `json.Unmarshal`.  The codec is embedded
over an explicit JSON value type.  `jrender` models `json.Marshal`'s compact
output for values whose strings contain only characters Go emits verbatim
(no `"`/`\`/control characters, none of the HTML-escaped `<`, `>`, `&`, and
not U+2028/U+2029); numbers are modelled as integers.  The parser models
`json.Unmarshal` on such compact documents: string escapes, interleaved
whitespace and fractional/exponent number forms are outside the model. -/

mutual
inductive Json where
  | null : Json
  | bool (b : Bool) : Json
  | num (n : Int) : Json
  | str (s : List Char) : Json
  | arr (items : JsonArr) : Json
  | obj (fields : JsonObj) : Json
inductive JsonArr where
  | nil : JsonArr
  | cons (hd : Json) (tl : JsonArr) : JsonArr
inductive JsonObj where
  | nil : JsonObj
  | cons (k : List Char) (v : Json) (tl : JsonObj) : JsonObj
end

/-- Decimal digit character for a value `d < 10`. -/
def digitChar (d : Nat) : Char := Char.ofNat (48 + d)

/-- Decimal digits of `n` accumulated onto `acc`, least significant digit
innermost, as produced by Go's integer formatting. -/
def digitsAux (n : Nat) (acc : List Char) : List Char :=
  if h : n = 0 then acc
  else digitsAux (n / 10) (digitChar (n % 10) :: acc)
termination_by n
decreasing_by exact Nat.div_lt_self (Nat.pos_of_ne_zero h) (by decide)

/-- Decimal rendering of a natural number (`"0"` for zero). -/
def natDigits (n : Nat) : List Char :=
  if n = 0 then ['0'] else digitsAux n []

/-- Decimal rendering of an integer, a leading `'-'` for negative values. -/
def intRender : Int → List Char
  | Int.ofNat n => natDigits n
  | Int.negSucc m => '-' :: natDigits (m + 1)

/-- Keyword literal `null`. -/
def kwNull : List Char := ['n', 'u', 'l', 'l']

/-- Keyword literal `true`. -/
def kwTrue : List Char := ['t', 'r', 'u', 'e']

/-- Keyword literal `false`. -/
def kwFalse : List Char := ['f', 'a', 'l', 's', 'e']

mutual
/-- Model of `json.Marshal`: the compact rendering of a JSON value. -/
def jrender : Json → List Char
  | .null => kwNull
  | .bool true => kwTrue
  | .bool false => kwFalse
  | .num n => intRender n
  | .str s => '"' :: (s ++ ['"'])
  | .arr .nil => ['[', ']']
  | .arr (.cons h t) => '[' :: (arrRender h t ++ [']'])
  | .obj .nil => ['\x7b', '\x7d']
  | .obj (.cons k v t) => '\x7b' :: (objRender k v t ++ ['\x7d'])
termination_by v => sizeOf v
/-- Comma-separated rendering of a non-empty array's elements. -/
def arrRender : Json → JsonArr → List Char
  | h, .nil => jrender h
  | h, .cons h2 t => jrender h ++ ',' :: arrRender h2 t
termination_by h t => sizeOf h + sizeOf t
/-- Comma-separated rendering of a non-empty object's `"key":value` fields. -/
def objRender : List Char → Json → JsonObj → List Char
  | k, v, .nil => '"' :: (k ++ '"' :: ':' :: jrender v)
  | k, v, .cons k2 v2 t =>
      ('"' :: (k ++ '"' :: ':' :: jrender v)) ++ ',' :: objRender k2 v2 t
termination_by _ v t => sizeOf v + sizeOf t
end

/-- Characters Go's `json.Marshal` writes into a string literal verbatim. -/
def plainChar (c : Char) : Bool :=
  32 ≤ c.toNat && c != '"' && c != '\\' && c != '<' && c != '>' && c != '&' &&
    c.toNat != 8232 && c.toNat != 8233

mutual
/-- The value is representable verbatim by the embedded codec: every string
(and every object key) consists of `plainChar` characters. -/
def jplain : Json → Bool
  | .null => true
  | .bool _ => true
  | .num _ => true
  | .str s => s.all plainChar
  | .arr items => aplain items
  | .obj fields => oplain fields
def aplain : JsonArr → Bool
  | .nil => true
  | .cons h t => jplain h && aplain t
def oplain : JsonObj → Bool
  | .nil => true
  | .cons k v t => k.all plainChar && jplain v && oplain t
end

/-- Decimal digit character class. -/
def isDigitChar (c : Char) : Bool := 48 ≤ c.toNat && c.toNat ≤ 57

/-- Numeric value of a decimal digit character. -/
def digitVal (c : Char) : Nat := c.toNat - 48

/-- Decimal value of a digit sequence, most significant digit first. -/
def foldDigits (a : Nat) (l : List Char) : Nat :=
  l.foldl (fun a c => 10 * a + digitVal c) a

/-- Parse a non-empty run of decimal digits. -/
def parseNat (s : List Char) : Option (Nat × List Char) :=
  let ds := s.takeWhile isDigitChar
  if ds = [] then none else some (foldDigits 0 ds, s.dropWhile isDigitChar)

/-- Parse an integer: an optional leading `'-'` and a non-empty digit run. -/
def parseNum (s : List Char) : Option (Int × List Char) :=
  if s.head? = some '-' then
    (parseNat s.tail).map fun p => (-(p.1 : Int), p.2)
  else
    (parseNat s).map fun p => ((p.1 : Int), p.2)

/-- Parse the interior of a string literal up to the closing quote.  Escape
sequences are not modelled (they never occur in `plainChar` strings). -/
def parseStrBody : List Char → Option (List Char × List Char)
  | [] => none
  | c :: rest =>
    if c = '"' then some ([], rest)
    else if c = '\\' then none
    else (parseStrBody rest).map fun p => (c :: p.1, p.2)

mutual
/-- Recursive-descent JSON value parser; `fuel` bounds the recursion depth and
is in practice the input length plus one. -/
def parseVal : Nat → List Char → Option (Json × List Char)
  | 0, _ => none
  | _ + 1, [] => none
  | fuel + 1, c :: r =>
    if c = '"' then
      (parseStrBody r).map fun p => (Json.str p.1, p.2)
    else if c = '[' then
      if r.head? = some ']' then some (Json.arr JsonArr.nil, r.tail)
      else (parseArrItems fuel r).map fun p => (Json.arr p.1, p.2)
    else if c = '\x7b' then
      if r.head? = some '\x7d' then some (Json.obj JsonObj.nil, r.tail)
      else (parseObjItems fuel r).map fun p => (Json.obj p.1, p.2)
    else if c = 'n' then
      if r.take 3 = ['u', 'l', 'l'] then some (Json.null, r.drop 3) else none
    else if c = 't' then
      if r.take 3 = ['r', 'u', 'e'] then some (Json.bool true, r.drop 3) else none
    else if c = 'f' then
      if r.take 4 = ['a', 'l', 's', 'e'] then some (Json.bool false, r.drop 4) else none
    else if c = '-' || isDigitChar c then
      (parseNum (c :: r)).map fun p => (Json.num p.1, p.2)
    else none
/-- Parse the elements of a non-empty array, consuming the closing `']'`. -/
def parseArrItems : Nat → List Char → Option (JsonArr × List Char)
  | 0, _ => none
  | fuel + 1, s =>
    match parseVal fuel s with
    | none => none
    | some (v, r) =>
      match r with
      | ',' :: r2 => (parseArrItems fuel r2).map fun p => (JsonArr.cons v p.1, p.2)
      | ']' :: r2 => some (JsonArr.cons v JsonArr.nil, r2)
      | _ => none
/-- Parse the fields of a non-empty object, consuming the closing brace. -/
def parseObjItems : Nat → List Char → Option (JsonObj × List Char)
  | 0, _ => none
  | fuel + 1, s =>
    match s with
    | '"' :: r0 =>
      match parseStrBody r0 with
      | none => none
      | some (k, r1) =>
        match r1 with
        | ':' :: r2 =>
          match parseVal fuel r2 with
          | none => none
          | some (v, r3) =>
            match r3 with
            | ',' :: r4 => (parseObjItems fuel r4).map fun p => (JsonObj.cons k v p.1, p.2)
            | '\x7d' :: r4 => some (JsonObj.cons k v JsonObj.nil, r4)
            | _ => none
        | _ => none
    | _ => none
end

/-- Model of `json.Unmarshal` on a whole buffer into a fresh JSON value: the parse must
consume the entire input (`json.Unmarshal` rejects trailing data). -/
def unmarshal (buf : List Char) : Option Json :=
  match parseVal (buf.length + 1) buf with
  | some (v, []) => some v
  | _ => none

/-- The remainder after a parsed value must not start with a digit (a digit
would have been absorbed into a preceding number literal). -/
def delimOk : List Char → Bool
  | [] => true
  | c :: _ => !isDigitChar c

/-! ## Construction (`Dial`)

`Dial` reads the logging flags and the `libstorage.host` endpoint from the
configuration, parses the optional TLS settings with `utils.ParseTLSConfig`,
parses the endpoint with `gotil.ParseAddress` and builds the HTTP client with
a custom dialer bound to the resolved transport.  `utils.ParseTLSConfig` and
`gotil.ParseAddress` are not part of the analysed source file; they are
modelled from the specification.  The carried context (defaulting to a fresh
background context and tagged with the host) only matters for cancellation,
which is modelled by the `NetResult` outcome of an exchange. -/

/-- The subset of Go's `tls.Config` the client consults: the server-name
override used when building the virtual request host. -/
structure TLSConfig where
  serverName : String
deriving DecidableEq

/-- Construction-time (configuration) errors. -/
inductive ConfigErr where
  | hostRequired
  | invalidAddress
  | invalidTLS
deriving DecidableEq

/-- Modelled from the spec: `gotil.ParseAddress` (Address Resolver, spec 4.1,
6, 8), absent from the analysed source.  `tcp://host:port` resolves to
transport kind `tcp` with address `host:port`; `unix:///absolute/path`
resolves to transport kind `unix` with address `/absolute/path`; an empty,
scheme-less or otherwise unsupported endpoint string fails with a
configuration error. -/
def ParseAddress (s : String) : Except ConfigErr (String × String) :=
  if startsWith ("tcp://".toList) s.toList then
    let addr := s.toList.drop 6
    if addr = [] then .error .invalidAddress else .ok ("tcp", addr.asString)
  else if startsWith ("unix://".toList) s.toList then
    let addr := s.toList.drop 7
    if addr = [] then .error .invalidAddress else .ok ("unix", addr.asString)
  else .error .invalidAddress

/-- The TLS portion of the configuration scope, by outcome class: TLS not
requested, requested with unusable certificate/key material, or requested
with valid material yielding a TLS configuration. -/
inductive TLSSpec where
  | absent
  | invalid
  | valid (cfg : TLSConfig)
deriving DecidableEq

/-- Modelled from the spec: `utils.ParseTLSConfig` (TLS Negotiator, spec 4.2),
absent from the analysed source.  No TLS requested yields an absent
configuration (not an error); specified but unreadable/malformed material
fails with a configuration error; valid material yields the configuration. -/
def ParseTLSConfig : TLSSpec → Except ConfigErr (Option TLSConfig)
  | .absent => .ok none
  | .invalid => .error .invalidTLS
  | .valid cfg => .ok (some cfg)

/-- The configuration lookups `Dial` performs. -/
structure Config where
  host : String
  tlsSpec : TLSSpec
  logRequests : Bool
  logResponses : Bool

/-- The client handle: the fields of the Go `client` struct that exchanges
consult (the embedded `gofig.Config` is consumed at construction, and the
HTTP client is represented by its dialer parameters, recoverable from the
stored fields). -/
structure Client where
  proto : String
  laddr : String
  tlsConfig : Option TLSConfig
  logRequests : Bool
  logResponses : Bool
deriving DecidableEq

/-- Construction: `Dial` requires a non-empty `libstorage.host`, then parses the TLS
configuration, then the endpoint address; any failure aborts construction
with that error and no client. -/
def Dial (config : Config) : Except ConfigErr Client :=
  if config.host = "" then .error .hostRequired
  else
    match ParseTLSConfig config.tlsSpec with
    | .error e => .error e
    | .ok tlsConfig =>
      match ParseAddress config.host with
      | .error e => .error e
      | .ok (cProto, cLaddr) =>
        .ok { proto := cProto, laddr := cLaddr, tlsConfig := tlsConfig,
              logRequests := config.logRequests,
              logResponses := config.logResponses }

/-! ## Transport factory (the dialer closure installed by `Dial`) -/

/-- The connection request a dialer invocation issues: a plain `net.Dial` or
a `tls.Dial`, with the protocol and address actually passed to it. -/
inductive Conn where
  | plain (proto addr : String)
  | tlsConn (proto addr : String) (cfg : TLSConfig)
deriving DecidableEq

/-- The dialer closure installed into the HTTP transport by `Dial`: it
captures the construction-time `cProto`, `cLaddr` and `tlsConfig`, and
ignores the `proto`/`addr` arguments supplied by the HTTP machinery at call
time. -/
def transportDial (cProto cLaddr : String) (tlsConfig : Option TLSConfig)
    (_proto _addr : String) : Conn :=
  match tlsConfig with
  | none => Conn.plain cProto cLaddr
  | some cfg => Conn.tlsConn cProto cLaddr cfg

/-- The dialer of a constructed client (the closure captures exactly the
values `Dial` stores into the client). -/
def Client.dialer (c : Client) : String → String → Conn :=
  transportDial c.proto c.laddr c.tlsConfig

/-! ## Request dispatcher (`httpDo`) -/

/-- Errors an exchange can return, by class.  In Go these are dynamic error
values; the classes correspond to the distinct producing sites:
`json.Marshal` in `encPayload`, transport errors and the context's
cancellation error from `ctxhttp.Do`, `ioutil.ReadAll` and `json.Unmarshal`
errors from `decRes`. -/
inductive ClientErr where
  | encodeErr
  | transportErr
  | canceledErr
  | readErr
  | jsonErr
deriving DecidableEq

/-- An exchange payload: either a value the codec represents, or a Go value
`json.Marshal` rejects (e.g. one containing a channel or a cycle). -/
inductive Payload where
  | json (v : Json)
  | unencodable

/-- Encoding (`encPayload`): a nil payload yields a nil request body; otherwise the
payload is marshalled to JSON, a marshal failure failing the exchange. -/
def encPayload (payload : Option Payload) : Except ClientErr (Option (List Char)) :=
  match payload with
  | none => .ok none
  | some (.json v) => .ok (some (jrender v))
  | some .unencodable => .error .encodeErr

/-- Decoding (`decRes`): read the whole response body (`none` models a read failure),
then `json.Unmarshal` it into the caller's container, whose shape is the
`shape` function (Go's unmarshal-into-typed-value performs parse and fit in
one step, both failures being unmarshal errors). -/
def decRes {α : Type} (shape : Json → Option α) (body : Option (List Char)) :
    Except ClientErr α :=
  match body with
  | none => .error .readErr
  | some buf =>
    match unmarshal buf with
    | none => .error .jsonErr
    | some v =>
      match shape v with
      | none => .error .jsonErr
      | some r => .ok r

/-- The HTTP request `httpDo` builds. -/
structure Request where
  method : String
  url : String
  body : Option (List Char)
deriving DecidableEq

/-- Outcome of `ctxhttp.Do` for one exchange together with the subsequent
body read: the round trip completed and the body reads fully (`ok (some b)`)
or fails partway (`ok none`); or `ctxhttp.Do` failed with a transport error;
or the governing context was cancelled before the round trip completed, in
which case `ctxhttp.Do` returns the context's cancellation error. -/
inductive NetResult where
  | ok (body : Option (List Char))
  | netErr
  | canceled

/-- Whether the wire dumps (`httputil.DumpRequest` / `DumpResponse`) inside
the diagnostic logger succeed. -/
structure LogEnv where
  dumpReqOk : Bool
  dumpResOk : Bool

/-- One line written to the logging sink. -/
inductive LogLine where
  | blank
  | reqBanner
  | reqDump (r : Request)
  | resBanner
  | resDump (body : Option (List Char))

/-- Diagnostic `logRequest`: gated by the request-logging flag; writes a blank line and
the banner, then dumps the request — a dump failure silently ends the
logging, never the exchange. -/
def logRequest (c : Client) (req : Request) (env : LogEnv) : List LogLine :=
  if !c.logRequests then []
  else if env.dumpReqOk then [.blank, .reqBanner, .reqDump req, .blank]
  else [.blank, .reqBanner]

/-- Diagnostic `logResponse`: gated by the response-logging flag; writes a blank line
and the banner, then dumps the response — a dump failure silently ends the
logging, never the exchange. -/
def logResponse (c : Client) (body : Option (List Char)) (env : LogEnv) : List LogLine :=
  if !c.logResponses then []
  else if env.dumpResOk then [.blank, .resBanner, .resDump body]
  else [.blank, .resBanner]

/-- The virtual request host of `httpDo`: the resolved address, replaced by
the fixed synthetic hostname for the Unix-socket transport, in turn replaced
by the TLS server-name override when one is configured and non-empty. -/
def reqHost (c : Client) : String :=
  let host := c.laddr
  let host := if c.proto = "unix" then "libstorage-server" else host
  match c.tlsConfig with
  | some tc => if tc.serverName ≠ "" then tc.serverName else host
  | none => host

/-- The request URL of `httpDo`: `fmt.Sprintf("http://%s%s", host, path)`. -/
def reqURL (c : Client) (path : String) : String :=
  "http://" ++ reqHost c ++ path

/-- The result of one exchange: the value or error returned, the request
that was built (`none` when the exchange failed before building one), and
the diagnostic log output. -/
structure ExchangeOut (α : Type) where
  result : Except ClientErr α
  request : Option Request
  logs : List LogLine

/-- The dispatcher `httpDo`: encode the payload (failing before any request is built),
build the request against the virtual host, log it, perform the round trip
through `ctxhttp.Do` (its outcome is the `net` parameter), log the response,
and decode the body into the caller's container.  `http.NewRequest` is
modelled as succeeding: the methods used are valid and the URL is formed
from the host and path. -/
def httpDo {α : Type} (c : Client) (method path : String) (payload : Option Payload)
    (net : NetResult) (shape : Json → Option α) (env : LogEnv) : ExchangeOut α :=
  match encPayload payload with
  | .error e => ⟨.error e, none, []⟩
  | .ok reqBody =>
    let req : Request := ⟨method, reqURL c path, reqBody⟩
    let reqLog := logRequest c req env
    match net with
    | .netErr => ⟨.error .transportErr, some req, reqLog⟩
    | .canceled => ⟨.error .canceledErr, some req, reqLog⟩
    | .ok body =>
      let resLog := logResponse c body env
      match decRes shape body with
      | .error e => ⟨.error e, some req, reqLog ++ resLog⟩
      | .ok v => ⟨.ok v, some req, reqLog ++ resLog⟩

/-- Exchange `httpGet`: a GET exchange with a nil payload. -/
def httpGet {α : Type} (c : Client) (path : String) (net : NetResult)
    (shape : Json → Option α) (env : LogEnv) : ExchangeOut α :=
  httpDo c "GET" path none net shape env

/-- Exchange `httpPost`: a POST exchange carrying the given payload. -/
def httpPost {α : Type} (c : Client) (path : String) (payload : Option Payload)
    (net : NetResult) (shape : Json → Option α) (env : LogEnv) : ExchangeOut α :=
  httpDo c "POST" path payload net shape env

/-- Exchange `httpDelete`: a DELETE exchange with a nil payload. -/
def httpDelete {α : Type} (c : Client) (path : String) (net : NetResult)
    (shape : Json → Option α) (env : LogEnv) : ExchangeOut α :=
  httpDo c "DELETE" path none net shape env

/-! ## Public query operations (`Root`, `Volumes`) -/

/-- A JSON array all of whose elements are strings, as a list. -/
def asStringList : JsonArr → Option (List (List Char))
  | .nil => some []
  | .cons (.str s) t => (asStringList t).map (s :: ·)
  | .cons _ _ => none

/-- Modelled from the spec: the `RootResponse` container (spec 4.7), absent
from the analysed source — an ordered sequence of resource-name strings,
decoded from a JSON array of strings. -/
def rootShape : Json → Option (List (List Char))
  | .arr items => asStringList items
  | _ => none

/-- A JSON array all of whose elements are objects (volume records), as a
list. -/
def asVolumeList : JsonArr → Option (List JsonObj)
  | .nil => some []
  | .cons (.obj o) t => (asVolumeList t).map (o :: ·)
  | .cons _ _ => none

/-- The fields of a JSON object whose values are arrays of volume records. -/
def asServiceMap : JsonObj → Option (List (List Char × List JsonObj))
  | .nil => some []
  | .cons k (.arr items) t =>
    match asVolumeList items with
    | none => none
    | some vols => (asServiceMap t).map ((k, vols) :: ·)
  | .cons _ _ _ => none

/-- Modelled from the spec: the `ServiceVolumeMap` container (spec 4.7, 6),
absent from the analysed source — a mapping from service name to a list of
volume records (opaque beyond their record structure), decoded from a JSON
object of arrays. -/
def volumesShape : Json → Option (List (List Char × List JsonObj)) :=
  fun j =>
    match j with
    | .obj fields => asServiceMap fields
    | _ => none

/-- Query `Root`: a GET exchange against `/` decoded into the root-resource list;
a dispatcher error is returned to the caller unchanged, with no list. -/
def Root (c : Client) (net : NetResult) (env : LogEnv) :
    Except ClientErr (List (List Char)) :=
  match (httpGet c "/" net rootShape env).result with
  | .error e => .error e
  | .ok reply => .ok reply

/-- Query `Volumes`: a GET exchange against `/volumes` decoded into the service
volume map; a dispatcher error is returned to the caller unchanged, with no
map. -/
def Volumes (c : Client) (net : NetResult) (env : LogEnv) :
    Except ClientErr (List (List Char × List JsonObj)) :=
  match (httpGet c "/volumes" net volumesShape env).result with
  | .error e => .error e
  | .ok reply => .ok reply

/-! ### Codec round-trip lemmas -/

theorem isDigitChar_digitChar (d : Nat) (h : d < 10) :
    isDigitChar (digitChar d) = true := by
  interval_cases d <;> decide

theorem digitVal_digitChar (d : Nat) (h : d < 10) : digitVal (digitChar d) = d := by
  interval_cases d <;> decide

theorem digitsAux_append (n : Nat) : ∀ acc, digitsAux n acc = digitsAux n [] ++ acc := by
  induction n using Nat.strong_induction_on with
  | _ n ih =>
    intro acc
    by_cases h : n = 0
    · subst h; simp [digitsAux]
    · have hlt : n / 10 < n := Nat.div_lt_self (Nat.pos_of_ne_zero h) (by decide)
      rw [digitsAux, dif_neg h]
      conv_rhs => rw [digitsAux, dif_neg h]
      rw [ih (n / 10) hlt (digitChar (n % 10) :: acc),
        ih (n / 10) hlt (digitChar (n % 10) :: [])]
      simp

theorem digitsAux_eq (n : Nat) (h : n ≠ 0) :
    digitsAux n [] = digitsAux (n / 10) [] ++ [digitChar (n % 10)] := by
  rw [digitsAux, dif_neg h, digitsAux_append]

theorem digitsAux_all (n : Nat) : (digitsAux n []).all isDigitChar = true := by
  induction n using Nat.strong_induction_on with
  | _ n ih =>
    by_cases h : n = 0
    · subst h; simp [digitsAux]
    · have hlt : n / 10 < n := Nat.div_lt_self (Nat.pos_of_ne_zero h) (by decide)
      rw [digitsAux_eq n h]
      simp [List.all_append, ih (n / 10) hlt,
        isDigitChar_digitChar (n % 10) (Nat.mod_lt _ (by decide))]

theorem natDigits_all (n : Nat) : (natDigits n).all isDigitChar = true := by
  by_cases h : n = 0
  · subst h; decide
  · rw [natDigits, if_neg h]; exact digitsAux_all n

theorem natDigits_ne_nil (n : Nat) : natDigits n ≠ [] := by
  by_cases h : n = 0
  · subst h; decide
  · rw [natDigits, if_neg h, digitsAux_eq n h]; simp

theorem natDigits_head (n : Nat) :
    ∃ c cs, natDigits n = c :: cs ∧ isDigitChar c = true := by
  cases hc : natDigits n with
  | nil => exact absurd hc (natDigits_ne_nil n)
  | cons c cs =>
    have hall := natDigits_all n
    rw [hc] at hall
    simp only [List.all_cons, Bool.and_eq_true] at hall
    exact ⟨c, cs, rfl, hall.1⟩

theorem foldDigits_append (a : Nat) (xs ys : List Char) :
    foldDigits a (xs ++ ys) = foldDigits (foldDigits a xs) ys := by
  simp [foldDigits, List.foldl_append]

theorem foldDigits_digitsAux : ∀ n : Nat, n ≠ 0 → foldDigits 0 (digitsAux n []) = n := by
  intro n
  induction n using Nat.strong_induction_on with
  | _ n ih =>
    intro h
    have h10 : n % 10 < 10 := Nat.mod_lt _ (by decide)
    rw [digitsAux_eq n h, foldDigits_append]
    by_cases hq : n / 10 = 0
    · rw [hq]
      simp [digitsAux, foldDigits, digitVal_digitChar _ h10]
      omega
    · rw [ih (n / 10) (Nat.div_lt_self (Nat.pos_of_ne_zero h) (by decide)) hq]
      simp [foldDigits, digitVal_digitChar _ h10]
      omega

theorem foldDigits_natDigits (n : Nat) : foldDigits 0 (natDigits n) = n := by
  by_cases h : n = 0
  · subst h; decide
  · rw [natDigits, if_neg h]; exact foldDigits_digitsAux n h

theorem takeWhile_digits :
    ∀ (xs rest : List Char), xs.all isDigitChar = true → delimOk rest = true →
      (xs ++ rest).takeWhile isDigitChar = xs ∧
        (xs ++ rest).dropWhile isDigitChar = rest := by
  intro xs
  induction xs with
  | nil =>
    intro rest _ hrest
    cases rest with
    | nil => simp
    | cons c r =>
      simp only [delimOk, Bool.not_eq_true'] at hrest
      simp [List.takeWhile, List.dropWhile, hrest]
  | cons c xs ih =>
    intro rest hall hrest
    simp only [List.all_cons, Bool.and_eq_true] at hall
    obtain ⟨hc, hxs⟩ := hall
    obtain ⟨h1, h2⟩ := ih rest hxs hrest
    simp [List.takeWhile, List.dropWhile, hc, h1, h2]

theorem parseNat_natDigits (n : Nat) (rest : List Char) (hrest : delimOk rest = true) :
    parseNat (natDigits n ++ rest) = some (n, rest) := by
  obtain ⟨htw, hdw⟩ := takeWhile_digits (natDigits n) rest (natDigits_all n) hrest
  rw [parseNat]
  simp [htw, hdw, natDigits_ne_nil n, foldDigits_natDigits n]

theorem isDigitChar_ne (c : Char) (h : isDigitChar c = true) :
    c ≠ '"' ∧ c ≠ '[' ∧ c ≠ '\x7b' ∧ c ≠ 'n' ∧ c ≠ 't' ∧ c ≠ 'f' ∧
      c ≠ '-' ∧ c ≠ ']' ∧ c ≠ '\x7d' := by
  refine ⟨?_, ?_, ?_, ?_, ?_, ?_, ?_, ?_, ?_⟩ <;> (rintro rfl; revert h; decide)

theorem parseNum_natDigits (n : Nat) (rest : List Char) (hrest : delimOk rest = true) :
    parseNum (natDigits n ++ rest) = some ((n : Int), rest) := by
  obtain ⟨c, cs, hcons, hcdig⟩ := natDigits_head n
  have hdash : c ≠ '-' := (isDigitChar_ne c hcdig).2.2.2.2.2.2.1
  have hhead : (natDigits n ++ rest).head? = some c := by rw [hcons]; rfl
  rw [parseNum, if_neg (by rw [hhead]; simp [hdash]), parseNat_natDigits n rest hrest]
  rfl

theorem parseNum_neg (m : Nat) (rest : List Char) (hrest : delimOk rest = true) :
    parseNum ('-' :: (natDigits (m + 1) ++ rest)) = some (Int.negSucc m, rest) := by
  rw [parseNum,
    if_pos (show ('-' :: (natDigits (m + 1) ++ rest)).head? = some '-' from rfl),
    List.tail_cons, parseNat_natDigits (m + 1) rest hrest]
  simp [Int.negSucc_coe]

theorem parseVal_num (f : Nat) (i : Int) (rest : List Char) (hrest : delimOk rest = true) :
    parseVal (f + 1) (intRender i ++ rest) = some (Json.num i, rest) := by
  cases i with
  | ofNat n =>
    obtain ⟨c, cs, hcons, hcdig⟩ := natDigits_head n
    obtain ⟨hq, hlb, hbr, hn, ht, hf, _, _, _⟩ := isDigitChar_ne c hcdig
    have hir : intRender (Int.ofNat n) = natDigits n := rfl
    rw [hir, hcons, List.cons_append, parseVal]
    rw [if_neg hq, if_neg hlb, if_neg hbr, if_neg hn, if_neg ht, if_neg hf,
      if_pos (by simp [hcdig])]
    rw [← List.cons_append, ← hcons, parseNum_natDigits n rest hrest]
    rfl
  | negSucc m =>
    have hir : intRender (Int.negSucc m) ++ rest = '-' :: (natDigits (m + 1) ++ rest) := rfl
    rw [hir, parseVal]
    rw [if_neg (by decide), if_neg (by decide), if_neg (by decide), if_neg (by decide),
      if_neg (by decide), if_neg (by decide), if_pos (by decide)]
    rw [parseNum_neg m rest hrest]
    rfl

theorem plainChar_ne (c : Char) (h : plainChar c = true) : c ≠ '"' ∧ c ≠ '\\' := by
  constructor <;> (rintro rfl; revert h; decide)

theorem parseStrBody_append (s : List Char) :
    ∀ rest : List Char, s.all plainChar = true →
      parseStrBody (s ++ '"' :: rest) = some (s, rest) := by
  induction s with
  | nil => intro rest _; simp [parseStrBody]
  | cons c s ih =>
    intro rest h
    simp only [List.all_cons, Bool.and_eq_true] at h
    obtain ⟨hc, hs⟩ := h
    obtain ⟨h1, h2⟩ := plainChar_ne c hc
    simp [parseStrBody, h1, h2, ih rest hs]

theorem jrender_head (v : Json) :
    ∃ c cs, jrender v = c :: cs ∧ c ≠ ']' ∧ c ≠ '\x7d' := by
  cases v with
  | null => exact ⟨'n', ['u', 'l', 'l'], by simp [jrender, kwNull], by decide, by decide⟩
  | bool b =>
    cases b with
    | true => exact ⟨'t', ['r', 'u', 'e'], by simp [jrender, kwTrue], by decide, by decide⟩
    | false =>
      exact ⟨'f', ['a', 'l', 's', 'e'], by simp [jrender, kwFalse], by decide, by decide⟩
  | num i =>
    cases i with
    | ofNat n =>
      obtain ⟨c, cs, hcons, hcdig⟩ := natDigits_head n
      obtain ⟨_, _, _, _, _, _, _, h8, h9⟩ := isDigitChar_ne c hcdig
      exact ⟨c, cs, by rw [show jrender (Json.num (Int.ofNat n)) = natDigits n from by
        simp [jrender, intRender], hcons], h8, h9⟩
    | negSucc m =>
      exact ⟨'-', natDigits (m + 1), by simp [jrender, intRender], by decide, by decide⟩
  | str s => exact ⟨'"', s ++ ['"'], by simp [jrender], by decide, by decide⟩
  | arr items =>
    cases items with
    | nil => exact ⟨'[', [']'], by simp [jrender], by decide, by decide⟩
    | cons h t =>
      exact ⟨'[', arrRender h t ++ [']'], by simp [jrender], by decide, by decide⟩
  | obj fields =>
    cases fields with
    | nil => exact ⟨'\x7b', ['\x7d'], by simp [jrender], by decide, by decide⟩
    | cons k v t =>
      exact ⟨'\x7b', objRender k v t ++ ['\x7d'], by simp [jrender], by decide, by decide⟩

theorem arrRender_head (h : Json) (t : JsonArr) :
    ∃ c cs, arrRender h t = c :: cs ∧ c ≠ ']' ∧ c ≠ '\x7d' := by
  obtain ⟨c, cs, hc, h1, h2⟩ := jrender_head h
  cases t with
  | nil => exact ⟨c, cs, by simp [arrRender, hc], h1, h2⟩
  | cons h2' t2 =>
    exact ⟨c, cs ++ ',' :: arrRender h2' t2, by simp [arrRender, hc], h1, h2⟩

theorem parseVal_str_step (f : Nat) (r : List Char) :
    parseVal (f + 1) ('"' :: r) =
      (parseStrBody r).map fun p => (Json.str p.1, p.2) := rfl

theorem parseVal_arr_step (f : Nat) (r : List Char) :
    parseVal (f + 1) ('[' :: r) =
      if r.head? = some ']' then some (Json.arr JsonArr.nil, r.tail)
      else (parseArrItems f r).map fun p => (Json.arr p.1, p.2) := rfl

theorem parseVal_obj_step (f : Nat) (r : List Char) :
    parseVal (f + 1) ('\x7b' :: r) =
      if r.head? = some '\x7d' then some (Json.obj JsonObj.nil, r.tail)
      else (parseObjItems f r).map fun p => (Json.obj p.1, p.2) := rfl

theorem parse_render (fuel : Nat) :
    (∀ (v : Json) (rest : List Char), jplain v = true → delimOk rest = true →
      (jrender v).length + 1 ≤ fuel →
      parseVal fuel (jrender v ++ rest) = some (v, rest)) ∧
    (∀ (h : Json) (t : JsonArr) (rest : List Char), jplain h = true → aplain t = true →
      (arrRender h t).length + 2 ≤ fuel →
      parseArrItems fuel (arrRender h t ++ ']' :: rest) = some (JsonArr.cons h t, rest)) ∧
    (∀ (k : List Char) (v : Json) (t : JsonObj) (rest : List Char),
      k.all plainChar = true → jplain v = true → oplain t = true →
      (objRender k v t).length + 2 ≤ fuel →
      parseObjItems fuel (objRender k v t ++ '\x7d' :: rest) =
        some (JsonObj.cons k v t, rest)) := by
  induction fuel using Nat.strong_induction_on with
  | _ fuel ih =>
    refine ⟨?_, ?_, ?_⟩
    · intro v rest hv hrest hlen
      obtain ⟨f, rfl⟩ : ∃ f, fuel = f + 1 := ⟨fuel - 1, by omega⟩
      cases v with
      | null => simp only [jrender, List.cons_append, List.nil_append]; rfl
      | bool b =>
        cases b <;> simp only [jrender, List.cons_append, List.nil_append] <;> rfl
      | num i =>
        simp only [jrender]
        exact parseVal_num f i rest hrest
      | str s =>
        simp only [jplain] at hv
        simp only [jrender, List.cons_append, List.append_assoc, List.singleton_append,
          List.nil_append]
        rw [parseVal_str_step, parseStrBody_append s rest hv]
        rfl
      | arr items =>
        cases items with
        | nil => simp only [jrender, List.cons_append, List.nil_append]; rfl
        | cons h t =>
          simp only [jplain, aplain, Bool.and_eq_true] at hv
          obtain ⟨hh, ht⟩ := hv
          simp only [jrender, List.length_cons, List.length_append,
            List.length_singleton] at hlen
          simp only [jrender, List.cons_append, List.append_assoc, List.singleton_append,
            List.nil_append]
          obtain ⟨c0, cs0, hc0, hne1, _⟩ := arrRender_head h t
          rw [parseVal_arr_step]
          rw [if_neg (by
            rw [hc0, List.cons_append]
            simp only [List.head?_cons, Option.some.injEq]
            exact hne1)]
          rw [(ih f (by omega)).2.1 h t rest hh ht (by omega)]
          rfl
      | obj fields =>
        cases fields with
        | nil => simp only [jrender, List.cons_append, List.nil_append]; rfl
        | cons k v t =>
          simp only [jplain, oplain, Bool.and_eq_true] at hv
          obtain ⟨⟨hk, hv'⟩, ht⟩ := hv
          simp only [jrender, List.length_cons, List.length_append,
            List.length_singleton] at hlen
          simp only [jrender, List.cons_append, List.append_assoc, List.singleton_append,
            List.nil_append]
          have hhead : ∃ cs1, objRender k v t = '"' :: cs1 := by
            cases t with
            | nil => exact ⟨k ++ '"' :: ':' :: jrender v, by simp [objRender]⟩
            | cons k2 v2 t2 =>
              exact ⟨(k ++ '"' :: ':' :: jrender v) ++ ',' :: objRender k2 v2 t2,
                by simp [objRender]⟩
          obtain ⟨cs1, hc1⟩ := hhead
          rw [parseVal_obj_step]
          rw [if_neg (by
            rw [hc1, List.cons_append]
            simp only [List.head?_cons, Option.some.injEq]
            decide)]
          rw [(ih f (by omega)).2.2 k v t rest hk hv' ht (by omega)]
          rfl
    · intro h t rest hh ht hlen
      obtain ⟨f, rfl⟩ : ∃ f, fuel = f + 1 := ⟨fuel - 1, by omega⟩
      have ihA := (ih f (by omega)).1
      cases t with
      | nil =>
        simp only [arrRender, List.length_append] at hlen ⊢
        simp only [parseArrItems]
        simp only [ihA h (']' :: rest) hh rfl (by omega)]
      | cons h2 t2 =>
        simp only [aplain, Bool.and_eq_true] at ht
        obtain ⟨hh2, ht2⟩ := ht
        simp only [arrRender, List.length_append, List.length_cons] at hlen
        simp only [arrRender, List.append_assoc, List.cons_append]
        simp only [parseArrItems]
        simp only [ihA h (',' :: (arrRender h2 t2 ++ ']' :: rest)) hh rfl (by omega)]
        simp only [(ih f (by omega)).2.1 h2 t2 rest hh2 ht2 (by omega)]
        rfl
    · intro k v t rest hk hv ht hlen
      obtain ⟨f, rfl⟩ : ∃ f, fuel = f + 1 := ⟨fuel - 1, by omega⟩
      have ihA := (ih f (by omega)).1
      cases t with
      | nil =>
        simp only [objRender, List.length_cons, List.length_append] at hlen
        simp only [objRender, List.cons_append, List.append_assoc]
        simp only [parseObjItems]
        simp only [parseStrBody_append k (':' :: (jrender v ++ '\x7d' :: rest)) hk]
        simp only [ihA v ('\x7d' :: rest) hv rfl (by omega)]
      | cons k2 v2 t2 =>
        simp only [oplain, Bool.and_eq_true] at ht
        obtain ⟨⟨hk2, hv2⟩, ht2⟩ := ht
        simp only [objRender, List.length_cons, List.length_append] at hlen
        simp only [objRender, List.cons_append, List.append_assoc]
        simp only [parseObjItems]
        simp only [parseStrBody_append k
          (':' :: (jrender v ++ ',' :: (objRender k2 v2 t2 ++ '\x7d' :: rest))) hk]
        simp only [ihA v (',' :: (objRender k2 v2 t2 ++ '\x7d' :: rest)) hv rfl (by omega)]
        simp only [(ih f (by omega)).2.2 k2 v2 t2 rest hk2 hv2 ht2 (by omega)]
        rfl

/-- Round trip of the embedded codec: decoding the rendering of a
representable JSON value recovers the value. -/
theorem unmarshal_jrender (v : Json) (hv : jplain v = true) :
    unmarshal (jrender v) = some v := by
  have hA := (parse_render ((jrender v).length + 1)).1 v [] hv rfl (le_refl _)
  rw [List.append_nil] at hA
  rw [unmarshal, hA]

/-! ## Claim theorems -/

/-- Every request an exchange builds carries the dispatcher's method, the
URL built from the virtual host, and the encoded payload as body. -/
theorem httpDo_request_eq {α : Type} (c : Client) (method path : String)
    (payload : Option Payload) (net : NetResult) (shape : Json → Option α)
    (env : LogEnv) (body : Option (List Char))
    (henc : encPayload payload = Except.ok body) (req : Request)
    (hreq : (httpDo c method path payload net shape env).request = some req) :
    req = ⟨method, reqURL c path, body⟩ := by
  cases net with
  | netErr => simp [httpDo, henc] at hreq; exact hreq.symm
  | canceled => simp [httpDo, henc] at hreq; exact hreq.symm
  | ok b =>
    cases hd : decRes shape b with
    | error e => simp [httpDo, henc, hd] at hreq; exact hreq.symm
    | ok v => simp [httpDo, henc, hd] at hreq; exact hreq.symm

/-- Claim C1: for every exchange issued through the dispatcher, the virtual
request host is, in priority order, the non-empty TLS server-name override,
else the fixed synthetic hostname `libstorage-server` when the resolved
transport is the Unix-domain socket, else the resolved address; and the
request URL is always `"http://"` ++ host ++ path, TLS or not. -/
theorem C1_virtual_host {α : Type} (c : Client) (method path : String)
    (payload : Option Payload) (net : NetResult) (shape : Json → Option α)
    (env : LogEnv) :
    (∀ tc, c.tlsConfig = some tc → tc.serverName ≠ "" → reqHost c = tc.serverName) ∧
    ((c.tlsConfig = none ∨ ∃ tc, c.tlsConfig = some tc ∧ tc.serverName = "") →
      c.proto = "unix" → reqHost c = "libstorage-server") ∧
    ((c.tlsConfig = none ∨ ∃ tc, c.tlsConfig = some tc ∧ tc.serverName = "") →
      c.proto ≠ "unix" → reqHost c = c.laddr) ∧
    (∀ req, (httpDo c method path payload net shape env).request = some req →
      req.url = "http://" ++ reqHost c ++ path) := by
  refine ⟨?_, ?_, ?_, ?_⟩
  · intro tc htc hsn
    simp [reqHost, htc, hsn]
  · rintro (hnone | ⟨tc, htc, hsn⟩) hunix
    · simp [reqHost, hnone, hunix]
    · simp [reqHost, htc, hsn, hunix]
  · rintro (hnone | ⟨tc, htc, hsn⟩) hproto
    · simp [reqHost, hnone, hproto]
    · simp [reqHost, htc, hsn, hproto]
  · intro req hreq
    cases hpe : encPayload payload with
    | error e =>
      rw [show httpDo c method path payload net shape env =
        ⟨.error e, none, []⟩ from by simp [httpDo, hpe]] at hreq
      simp at hreq
    | ok body =>
      rw [httpDo_request_eq c method path payload net shape env body hpe req hreq]
      simp [reqURL]

/-- Witness for C1 at a concrete client with a TLS server-name override. -/
theorem C1_virtual_host_witness :
    reqHost ⟨"tcp", "127.0.0.1:7979", some ⟨"alt-name"⟩, false, false⟩ = "alt-name" :=
  (C1_virtual_host (α := Json) ⟨"tcp", "127.0.0.1:7979", some ⟨"alt-name"⟩, false, false⟩
    "GET" "/" none NetResult.netErr (fun j => some j) ⟨true, true⟩).1
    ⟨"alt-name"⟩ rfl (by decide)

/-- Counterexample to claim C2: on the stated file content with prefix
`xvd`, the scanner does not return `["/dev/xvdb"]` — the regular expression
`^.+?\s(xvd\w+)$` anchors the captured token at end of line, and the line
`xvdb 202:16 disk` ends in `disk`. -/
theorem C2_counterexample :
    getLocalDevices ("xvd".toList)
        ("sda 8:0 disk\nxvdb 202:16 disk\nno-match-line\n".toList) ≠
      ["/dev/xvdb".toList] := by decide

/-- Claim C2 as amended: on the stated file content with prefix `xvd`, the
scanner returns the empty sequence — no line ends in a token starting with
`xvd` preceded by whitespace. -/
theorem C2_scanner_scenario :
    getLocalDevices ("xvd".toList)
      ("sda 8:0 disk\nxvdb 202:16 disk\nno-match-line\n".toList) = [] := by decide

/-- Claim C3: the dialer installed at construction ignores its runtime
protocol/address arguments; it opens a plain connection to the resolved
endpoint when no TLS configuration is present, else a TLS connection to the
resolved endpoint. -/
theorem C3_dialer_ignores_args (c : Client) (p1 a1 p2 a2 : String) :
    c.dialer p1 a1 = c.dialer p2 a2 ∧
    (c.tlsConfig = none → c.dialer p1 a1 = Conn.plain c.proto c.laddr) ∧
    (∀ cfg, c.tlsConfig = some cfg →
      c.dialer p1 a1 = Conn.tlsConn c.proto c.laddr cfg) := by
  refine ⟨?_, ?_, ?_⟩
  · cases htc : c.tlsConfig <;> simp [Client.dialer, transportDial, htc]
  · intro htc; simp [Client.dialer, transportDial, htc]
  · intro cfg htc; simp [Client.dialer, transportDial, htc]

/-- Witness for C3 at a concrete plain-TCP client and distinct runtime
arguments. -/
theorem C3_dialer_witness :
    Client.dialer ⟨"tcp", "10.0.0.5:7979", none, false, false⟩ "udp" "other:1" =
      Conn.plain "tcp" "10.0.0.5:7979" :=
  (C3_dialer_ignores_args ⟨"tcp", "10.0.0.5:7979", none, false, false⟩
    "udp" "other:1" "tcp" "elsewhere:2").2.1 rfl

/-- Claim C4: when the round trip succeeds but the body cannot be read or is
not valid JSON for the target container, the exchange fails with a decode
error distinct from the transport and cancellation errors, and `Root` and
`Volumes` return the dispatcher's error unchanged. -/
theorem C4_decode_errors (c : Client) (env : LogEnv) :
    ((httpGet c "/" (NetResult.ok none) rootShape env).result =
      Except.error ClientErr.readErr) ∧
    (∀ buf, unmarshal buf = none →
      (httpGet c "/" (NetResult.ok (some buf)) rootShape env).result =
        Except.error ClientErr.jsonErr) ∧
    (∀ buf v, unmarshal buf = some v → rootShape v = none →
      (httpGet c "/" (NetResult.ok (some buf)) rootShape env).result =
        Except.error ClientErr.jsonErr) ∧
    (ClientErr.readErr ≠ ClientErr.transportErr ∧
      ClientErr.readErr ≠ ClientErr.canceledErr ∧
      ClientErr.jsonErr ≠ ClientErr.transportErr ∧
      ClientErr.jsonErr ≠ ClientErr.canceledErr) ∧
    (∀ net e, (httpGet c "/" net rootShape env).result = Except.error e →
      Root c net env = Except.error e) ∧
    (∀ net e, (httpGet c "/volumes" net volumesShape env).result = Except.error e →
      Volumes c net env = Except.error e) := by
  refine ⟨?_, ?_, ?_, by decide, ?_, ?_⟩
  · simp [httpGet, httpDo, encPayload, decRes]
  · intro buf hbuf
    simp [httpGet, httpDo, encPayload, decRes, hbuf]
  · intro buf v hbuf hshape
    simp [httpGet, httpDo, encPayload, decRes, hbuf, hshape]
  · intro net e h; simp [Root, h]
  · intro net e h; simp [Volumes, h]

/-- Witness for C4: a non-JSON body yields the decode error, propagated
unchanged by `Root`. -/
theorem C4_decode_errors_witness :
    Root ⟨"tcp", "127.0.0.1:7979", none, false, false⟩
        (NetResult.ok (some ("not-json".toList))) ⟨true, true⟩ =
      Except.error ClientErr.jsonErr :=
  (C4_decode_errors ⟨"tcp", "127.0.0.1:7979", none, false, false⟩ ⟨true, true⟩).2.2.2.2.1
    (NetResult.ok (some ("not-json".toList))) ClientErr.jsonErr
    ((C4_decode_errors ⟨"tcp", "127.0.0.1:7979", none, false, false⟩ ⟨true, true⟩).2.1
      ("not-json".toList) rfl)

/-- Claim C5: a nil payload — as in every GET and DELETE exchange — yields an
empty request body; a non-nil payload yields exactly its JSON encoding as
body, which decodes back to the payload (for representable payloads); and a
payload the JSON encoder rejects fails the exchange before any request is
built, independently of the network. -/
theorem C5_payload_encoding {α : Type} (c : Client) (path : String)
    (net : NetResult) (shape : Json → Option α) (env : LogEnv) :
    (∀ req, (httpGet c path net shape env).request = some req → req.body = none) ∧
    (∀ req, (httpDelete c path net shape env).request = some req → req.body = none) ∧
    (∀ v req, (httpPost c path (some (Payload.json v)) net shape env).request = some req →
      req.body = some (jrender v)) ∧
    (∀ v, jplain v = true → unmarshal (jrender v) = some v) ∧
    (∀ (method : String) (net2 : NetResult) (env2 : LogEnv),
      httpDo (α := α) c method path (some Payload.unencodable) net2 shape env2 =
        ⟨Except.error ClientErr.encodeErr, none, []⟩) := by
  refine ⟨?_, ?_, ?_, ?_, ?_⟩
  · intro req hreq
    rw [httpDo_request_eq c "GET" path none net shape env none rfl req hreq]
  · intro req hreq
    rw [httpDo_request_eq c "DELETE" path none net shape env none rfl req hreq]
  · intro v req hreq
    rw [httpDo_request_eq c "POST" path (some (Payload.json v)) net shape env
      (some (jrender v)) rfl req hreq]
  · intro v hv; exact unmarshal_jrender v hv
  · intro method net2 env2; rfl

/-- Witness for C5: a sample payload round-trips through the codec. -/
theorem C5_payload_encoding_witness :
    unmarshal (jrender Json.null) = some Json.null :=
  (C5_payload_encoding (α := Json) ⟨"tcp", "127.0.0.1:7979", none, false, false⟩ "/"
    (NetResult.ok (some ("null".toList))) (fun j => some j) ⟨true, true⟩).2.2.2.1
    Json.null (by simp [jplain])

/-- Claim C6: encoding a representable value with the outbound codec and
decoding the bytes with the inbound codec into a same-shaped container
succeeds and yields the original value. -/
theorem C6_codec_round_trip (v : Json) (hv : jplain v = true) :
    encPayload (some (Payload.json v)) = Except.ok (some (jrender v)) ∧
    decRes (fun j => some j) (some (jrender v)) = Except.ok v := by
  refine ⟨rfl, ?_⟩
  simp [decRes, unmarshal_jrender v hv]

/-- Witness for C6 at a concrete representable value. -/
theorem C6_codec_round_trip_witness :
    decRes (fun j => some j) (some (jrender (Json.bool true))) =
      Except.ok (Json.bool true) :=
  (C6_codec_round_trip (Json.bool true) (by simp [jplain])).2

/-- Claim C7: construction fails with a configuration error — an error and no
client — when the endpoint string is empty, when it is unparseable, and when
the TLS settings are specified but invalid; a produced client implies none of
these held and carries the resolved transport. -/
theorem C7_dial_failures (config : Config) :
    ((config.host = "" ∨ config.tlsSpec = TLSSpec.invalid ∨
        (∃ e, ParseAddress config.host = Except.error e)) →
      ∃ e, Dial config = Except.error e) ∧
    (∀ c, Dial config = Except.ok c →
      config.host ≠ "" ∧ config.tlsSpec ≠ TLSSpec.invalid ∧
      ∃ p a, ParseAddress config.host = Except.ok (p, a) ∧
        c.proto = p ∧ c.laddr = a) := by
  constructor
  · rintro (hhost | htls | ⟨e, haddr⟩)
    · exact ⟨ConfigErr.hostRequired, by simp [Dial, hhost]⟩
    · by_cases hhost : config.host = ""
      · exact ⟨ConfigErr.hostRequired, by simp [Dial, hhost]⟩
      · exact ⟨ConfigErr.invalidTLS, by simp [Dial, hhost, htls, ParseTLSConfig]⟩
    · by_cases hhost : config.host = ""
      · exact ⟨ConfigErr.hostRequired, by simp [Dial, hhost]⟩
      · cases htls : config.tlsSpec with
        | invalid => exact ⟨ConfigErr.invalidTLS, by simp [Dial, hhost, htls, ParseTLSConfig]⟩
        | absent => exact ⟨e, by simp [Dial, hhost, htls, ParseTLSConfig, haddr]⟩
        | valid cfg => exact ⟨e, by simp [Dial, hhost, htls, ParseTLSConfig, haddr]⟩
  · intro c hc
    by_cases hhost : config.host = ""
    · simp [Dial, hhost] at hc
    · cases htls : config.tlsSpec with
      | invalid => simp [Dial, hhost, htls, ParseTLSConfig] at hc
      | absent =>
        cases haddr : ParseAddress config.host with
        | error e => simp [Dial, hhost, htls, ParseTLSConfig, haddr] at hc
        | ok pa =>
          obtain ⟨p, a⟩ := pa
          have hdial : Dial config =
              Except.ok ⟨p, a, none, config.logRequests, config.logResponses⟩ := by
            simp [Dial, hhost, htls, ParseTLSConfig, haddr]
          rw [hdial] at hc
          obtain rfl : (⟨p, a, none, config.logRequests,
              config.logResponses⟩ : Client) = c := by injection hc
          exact ⟨hhost, by simp [htls], p, a, rfl, rfl, rfl⟩
      | valid cfg =>
        cases haddr : ParseAddress config.host with
        | error e => simp [Dial, hhost, htls, ParseTLSConfig, haddr] at hc
        | ok pa =>
          obtain ⟨p, a⟩ := pa
          have hdial : Dial config =
              Except.ok ⟨p, a, some cfg, config.logRequests, config.logResponses⟩ := by
            simp [Dial, hhost, htls, ParseTLSConfig, haddr]
          rw [hdial] at hc
          obtain rfl : (⟨p, a, some cfg, config.logRequests,
              config.logResponses⟩ : Client) = c := by injection hc
          exact ⟨hhost, by simp [htls], p, a, rfl, rfl, rfl⟩

/-- Witness for C7: an empty endpoint fails construction. -/
theorem C7_dial_failures_witness :
    ∃ e, Dial ⟨"", TLSSpec.absent, false, false⟩ = Except.error e :=
  (C7_dial_failures ⟨"", TLSSpec.absent, false, false⟩).1 (Or.inl rfl)

/-- Claim C8: the outcome of an exchange is the same for every setting of the
two diagnostic-logging flags and every outcome of the wire dumps — a failure
inside the logging path never fails or changes the exchange. -/
theorem C8_logging_frame {α : Type} (c : Client) (method path : String)
    (payload : Option Payload) (net : NetResult) (shape : Json → Option α)
    (env env' : LogEnv) (lr lrs lr' lrs' : Bool) :
    (httpDo { c with logRequests := lr, logResponses := lrs }
        method path payload net shape env).result =
      (httpDo { c with logRequests := lr', logResponses := lrs' }
        method path payload net shape env').result := by
  cases hpe : encPayload payload with
  | error e => simp [httpDo, hpe]
  | ok body =>
    cases net with
    | netErr => simp [httpDo, hpe]
    | canceled => simp [httpDo, hpe]
    | ok b =>
      cases hd : decRes shape b with
      | error e => simp [httpDo, hpe, hd]
      | ok v => simp [httpDo, hpe, hd]

/-- Claim C9: when the governing context is cancelled before the round trip
completes, the exchange returns the cancellation-kind error — distinct from
the transport error — and performs no decoding.  `ctxhttp.Do`'s contract
(returning the context's error on cancellation) is the `canceled` outcome of
`NetResult`. -/
theorem C9_cancellation {α : Type} (c : Client) (method path : String)
    (payload : Option Payload) (body : Option (List Char))
    (henc : encPayload payload = Except.ok body)
    (shape : Json → Option α) (env : LogEnv) :
    (httpDo c method path payload NetResult.canceled shape env).result =
      Except.error ClientErr.canceledErr ∧
    ClientErr.canceledErr ≠ ClientErr.transportErr :=
  ⟨by simp [httpDo, henc], by decide⟩

/-- Witness for C9 at a concrete GET exchange. -/
theorem C9_cancellation_witness :
    (httpDo (α := Json) ⟨"tcp", "127.0.0.1:7979", none, false, false⟩ "GET" "/" none
        NetResult.canceled (fun j => some j) ⟨true, true⟩).result =
      Except.error ClientErr.canceledErr :=
  (C9_cancellation ⟨"tcp", "127.0.0.1:7979", none, false, false⟩ "GET" "/" none none rfl
    (fun j => some j) ⟨true, true⟩).1

/-! ### Scanner-shape lemmas for C10 -/

theorem isWordChar_not_space (c : Char) (h : isWordChar c = true) :
    isSpaceChar c = false := by
  cases hs : isSpaceChar c
  · rfl
  · exfalso
    simp only [isWordChar, Bool.or_eq_true, Bool.and_eq_true, decide_eq_true_eq] at h
    simp only [isSpaceChar, Bool.or_eq_true, decide_eq_true_eq] at hs
    omega

theorem rxFind_some (pfx : List Char) :
    ∀ l cap, rxFind pfx l = some cap →
      ∃ pre w, l = pre ++ w :: cap ∧ isSpaceChar w = true ∧ tailOk pfx cap = true := by
  intro l
  induction l with
  | nil => intro cap h; simp [rxFind] at h
  | cons c r ih =>
    intro cap h
    rw [rxFind] at h
    by_cases hc : (isSpaceChar c && tailOk pfx r) = true
    · rw [if_pos hc] at h
      simp only [Bool.and_eq_true] at hc
      obtain ⟨h1, h2⟩ := hc
      obtain rfl : r = cap := by injection h
      exact ⟨[], c, by simp, h1, h2⟩
    · rw [if_neg hc] at h
      obtain ⟨pre, w, hl, hws, htl⟩ := ih cap h
      exact ⟨c :: pre, w, by simp [hl], hws, htl⟩

theorem rxFind_none_of_no_space (pfx : List Char) :
    ∀ l, (∀ c ∈ l, isSpaceChar c = false) → rxFind pfx l = none := by
  intro l
  induction l with
  | nil => intro _; simp [rxFind]
  | cons c r ih =>
    intro hall
    have hc : isSpaceChar c = false := hall c (by simp)
    rw [rxFind, if_neg (by simp [hc])]
    exact ih fun x hx => hall x (by simp [hx])

theorem tailOk_spec (pfx cap : List Char) (h : tailOk pfx cap = true) :
    startsWith pfx cap = true ∧ cap.drop pfx.length ≠ [] ∧
      (cap.drop pfx.length).all isWordChar = true := by
  simp only [tailOk, Bool.and_eq_true, decide_eq_true_eq] at h
  exact ⟨h.1.1, h.1.2, h.2⟩

/-- Claim C10: a line produces a scanner entry only when at least one
character and then a whitespace character precede the final
prefix-plus-word-characters token; a line that is nothing but the prefix
followed by word characters produces no entry; and every emitted entry is
exactly `"/dev/"` followed by the captured group, which begins with the
prefix. -/
theorem C10_scanner_match_shape (pfx content : List Char)
    (hw : pfx.all isWordChar = true) :
    (∀ line cap, lineMatch pfx line = some cap →
      (∃ pre w, line = pre ++ w :: cap ∧ pre ≠ [] ∧ isSpaceChar w = true) ∧
        startsWith pfx cap = true ∧ cap.drop pfx.length ≠ [] ∧
        (cap.drop pfx.length).all isWordChar = true) ∧
    (∀ suf, suf ≠ [] → suf.all isWordChar = true →
      lineMatch pfx (pfx ++ suf) = none) ∧
    (∀ d, d ∈ getLocalDevices pfx content →
      ∃ line ∈ scanLines content, ∃ cap, lineMatch pfx line = some cap ∧
        startsWith pfx cap = true ∧ d = "/dev/".toList ++ cap) := by
  have hmatch : ∀ line cap, lineMatch pfx line = some cap →
      (∃ pre w, line = pre ++ w :: cap ∧ pre ≠ [] ∧ isSpaceChar w = true) ∧
        startsWith pfx cap = true ∧ cap.drop pfx.length ≠ [] ∧
        (cap.drop pfx.length).all isWordChar = true := by
    intro line cap h
    cases line with
    | nil => simp [lineMatch] at h
    | cons c0 r =>
      rw [show lineMatch pfx (c0 :: r) = rxFind pfx r from rfl] at h
      obtain ⟨pre, w, hl, hws, htl⟩ := rxFind_some pfx r cap h
      obtain ⟨h1, h2, h3⟩ := tailOk_spec pfx cap htl
      exact ⟨⟨c0 :: pre, w, by simp [hl], by simp, hws⟩, h1, h2, h3⟩
  refine ⟨hmatch, ?_, ?_⟩
  · intro suf hne hsw
    have hall : ∀ ch ∈ pfx ++ suf, isSpaceChar ch = false := by
      intro ch hch
      rcases List.mem_append.mp hch with hch | hch
      · exact isWordChar_not_space ch (List.all_eq_true.mp hw ch hch)
      · exact isWordChar_not_space ch (List.all_eq_true.mp hsw ch hch)
    cases hL : pfx ++ suf with
    | nil => simp [lineMatch]
    | cons c0 r =>
      show rxFind pfx r = none
      exact rxFind_none_of_no_space pfx r fun ch hch =>
        hall ch (by rw [hL]; exact List.mem_cons_of_mem c0 hch)
  · intro d hd
    simp only [getLocalDevices, List.mem_filterMap] at hd
    obtain ⟨line, hline, hmap⟩ := hd
    rw [Option.map_eq_some'] at hmap
    obtain ⟨cap, hcap, hdev⟩ := hmap
    exact ⟨line, hline, cap, hcap, (hmatch line cap hcap).2.1, hdev.symm⟩

/-- Witness for C10: a line that is only the prefix plus word characters
produces no entry. -/
theorem C10_scanner_match_shape_witness :
    lineMatch ("xvd".toList) ("xvd".toList ++ "b1".toList) = none :=
  (C10_scanner_match_shape ("xvd".toList) [] (by decide)).2.1
    ("b1".toList) (by decide) (by decide)

end LibStorage
